import Mathlib

/-!
Verification of `scan-github/github_search_actions.py`.

The Python program is shallowly embedded: pure string manipulation is
modelled on `List Char` (Python `str` semantics for `lower`, `strip`,
`split`, `startswith`), YAML/JSON values as an inductive `Yaml` type,
Python exceptions as `Except`, and network effects as explicit response
parameters plus event traces.
-/

set_option maxRecDepth 4096

/-! ## Python string primitives (on `List Char`) -/

/-- Python `str.lower()` restricted to per-character lowering. -/
def pyLower (s : List Char) : List Char := s.map Char.toLower

/-- Python `str.strip()`: drop leading and trailing whitespace. -/
def pyStrip (s : List Char) : List Char :=
  ((s.dropWhile Char.isWhitespace).reverse.dropWhile Char.isWhitespace).reverse

/-- Python `str.split(sep)` for a one-character separator.
`pySplitOn c s` splits `s` at every occurrence of `c`; like Python's
`split`, it never returns an empty list (`"".split(c) == [""]`). -/
def pySplitOn (sep : Char) : List Char → List (List Char)
  | [] => [[]]
  | c :: rest =>
    let r := pySplitOn sep rest
    if c = sep then [] :: r
    else (c :: r.headD []) :: r.tail

/-- Python `s.startswith(p)`. -/
def pyStartswith (s p : List Char) : Bool := p.isPrefixOf s

/-! ## ActionClassifier: `is_third_party` (github_search_actions.py lines 191-217) -/

/-- The normalised reference: `action_ref.lower().strip()`. -/
def normRef (r : List Char) : List Char := pyStrip (pyLower r)

/-- The presumed owner: `action_ref.split("@")[0].split("/")[0]`
(the text before the first `/` of the part before the first `@`). -/
def ownerOf (r : List Char) : List Char :=
  (pySplitOn '/' ((pySplitOn '@' r).headD [])).headD []

/-- Embedding of `is_third_party(action_ref, own_orgs)`:
normalise, return `False` for the `actions/` prefix, split off the owner
(the `if not parts` guard is kept verbatim from the source), and return
`owner not in own_orgs and owner != "docker"`. -/
def is_third_party (action_ref : List Char) (own_orgs : List (List Char)) : Bool :=
  if pyStartswith (normRef action_ref) ("actions/".toList) then false
  else if pySplitOn '/' ((pySplitOn '@' (normRef action_ref)).headD []) = [] then false
  else
    decide (ownerOf (normRef action_ref) ∉ own_orgs) &&
    decide (ownerOf (normRef action_ref) ≠ "docker".toList)

/-- The classifier as the specification words it: first-party (`false`) iff
the normalised reference starts with `actions/`, or the owner equals
`docker`, or the owner is a member of `ownOrgs`; third-party otherwise. -/
def classify_spec (ref : List Char) (ownOrgs : List (List Char)) : Bool :=
  !(pyStartswith (normRef ref) ("actions/".toList) ||
    decide (ownerOf (normRef ref) = "docker".toList) ||
    decide (ownerOf (normRef ref) ∈ ownOrgs))

/-! ## WorkflowParser: `parse_workflow_file` (github_search_actions.py lines 151-188)

A YAML value as produced by `yaml.safe_load`: Python `None`, `bool`, a
number, `str`, `list`, or `dict` (insertion-ordered key/value pairs). -/

inductive Yaml where
  | null
  | bool (b : Bool)
  | num (n : Int)
  | str (s : String)
  | seq (xs : List Yaml)
  | map (kvs : List (String × Yaml))

/-- Python `d.get(key)` on an insertion-ordered dict. -/
def yGet : List (String × Yaml) → String → Option Yaml
  | [], _ => none
  | (k, v) :: rest, key => if k = key then some v else yGet rest key

/-- Python `isinstance(v, dict)`. -/
def Yaml.isMap : Yaml → Bool
  | .map _ => true
  | _ => false

/-- One step of the inner loop: `if isinstance(step, dict) and "uses" in step`
yields `step["uses"]`, otherwise nothing. -/
def stepUses : Yaml → Option Yaml
  | .map skvs => yGet skvs "uses"
  | _ => none

/-- The `for job_name, job_data in jobs.items()` loop.  For each job the code
runs `job_data.get("steps", [])`, which raises `AttributeError` when the job
entry is not a dict (the surrounding `try` only covers `yaml.safe_load`);
a non-list `steps` value is skipped by the `isinstance` guard; for a list,
the `uses` values of dict-steps carrying the key are appended in order. -/
def jobs_uses : List (String × Yaml) → Except String (List Yaml)
  | [] => .ok []
  | (_, jd) :: rest =>
    match jd with
    | .map jm =>
      (jobs_uses rest).map fun r =>
        (match (yGet jm "steps").getD (.seq []) with
         | .seq ss => ss.filterMap stepUses
         | _ => []) ++ r
    | _ => .error "AttributeError"

/-- Embedding of `parse_workflow_file(download_url)` after the remote fetch.
The argument encodes the effectful prefix: `none` is a non-200 download
(`return []`), `some none` a `yaml.safe_load` failure caught by the
`except` (`return []`), and `some (some wd)` a successfully parsed document
`wd`.  A non-dict document and a non-dict `jobs` value yield `[]`; the
`jobs` dict is walked by `jobs_uses`. -/
def parse_workflow_file (resp : Option (Option Yaml)) : Except String (List Yaml) :=
  match resp with
  | none => .ok []
  | some none => .ok []
  | some (some wd) =>
    match wd with
    | .map kvs =>
      match (yGet kvs "jobs").getD (Yaml.map []) with
      | .map jkvs => jobs_uses jkvs
      | _ => .ok []
    | _ => .ok []

/-- Specification-side accessor: the `steps` sequence of a job mapping, when
the job is a mapping whose `steps` key holds a sequence. -/
def stepsOfJob : Yaml → Option (List Yaml)
  | .map jm =>
    match yGet jm "steps" with
    | some (.seq ss) => some ss
    | _ => none
  | _ => none

/-- Shape predicate: whenever the fetched document is a mapping and its
`jobs` value is a mapping, every job entry is itself a mapping. -/
def jobsWellShaped : Option (Option Yaml) → Bool
  | some (some (Yaml.map kvs)) =>
    match (yGet kvs "jobs").getD (Yaml.map []) with
    | Yaml.map jkvs => jkvs.all fun p => p.2.isMap
    | _ => true
  | _ => true

/-! ## Remote calls and event traces

Network effects are embedded explicitly: each remote call site contributes
an `Event.api` element to the run's trace, and each `time.sleep` an
`Event.sleep`; responses are passed in as parameters. -/

inductive ApiCall where
  | rateLimit
  | orgList
  | repoPage
  | contentsDir
  | rawDownload
deriving DecidableEq

inductive Event where
  | api (c : ApiCall)
  | sleep (secs : Int)
deriving DecidableEq

def isSleep : Event → Bool
  | Event.sleep _ => true
  | _ => false

def isApi : Event → Bool
  | Event.api _ => true
  | _ => false

def isRateCheck : Event → Bool
  | Event.api ApiCall.rateLimit => true
  | _ => false

/-- A response of the `/rate_limit` endpoint. -/
structure RateResp where
  status : Nat
  remaining : Nat
  reset : Int

/-- `check_rate_limit()`: a 200 response yields `(remaining, reset)`, any
other status yields `(0, 0)`. -/
def check_rate_limit (r : RateResp) : Nat × Int :=
  if r.status = 200 then (r.remaining, r.reset) else (0, 0)

/-- The trace of `check_rate_limit()`: one request to the quota endpoint. -/
def check_rate_limit_tr : List Event := [Event.api ApiCall.rateLimit]

/-- `enforce_rate_limit()`: one quota check; if the reported remaining is 0,
one sleep of `max(reset - now, 65)` seconds; then return. -/
def enforce_rate_limit (r : RateResp) (now : Int) : List Event :=
  check_rate_limit_tr ++
    (if (check_rate_limit r).1 = 0 then
      [Event.sleep (max ((check_rate_limit r).2 - now) 65)]
    else [])

/-- A response of the `/user/orgs` endpoint. -/
structure OrgsResp where
  status : Nat
  logins : List String

/-- The trace of `fetch_orgs()`: a single organisation-list request, issued
with no preceding `enforce_rate_limit()` call. -/
def fetch_orgs_tr : List Event := [Event.api ApiCall.orgList]

/-- The value returned by `fetch_orgs()`: the logins on a 200 response, `[]`
on any error status. -/
def fetch_orgs_val (r : OrgsResp) : List String :=
  if r.status = 200 then r.logins else []

/-- `load_orgs()`: `none` encodes a missing `ORG_FILE`, `some none` a file
whose contents fail to parse as JSON (the `except` branch), and
`some (some v)` a file parsing to the JSON value `v`.  The parsed value is
returned as-is — no shape validation; the other two cases fall back to the
live fetch (which returns a JSON array of login strings). -/
def load_orgs (file : Option (Option Yaml)) (r : OrgsResp) : Yaml :=
  match file with
  | none => Yaml.seq ((fetch_orgs_val r).map Yaml.str)
  | some none => Yaml.seq ((fetch_orgs_val r).map Yaml.str)
  | some (some v) => v

/-- One page of the `/orgs/{org}/repos` endpoint. -/
structure PageResp where
  status : Nat
  batch : List String

/-- The trace of `fetch_all_repos(org)`: each loop iteration runs
`enforce_rate_limit()` then one page request; a non-200 status or an empty
batch stops the loop (an exhausted response list plays the terminating empty
page the live server eventually returns).  `rl`/`now` give the quota
response and clock seen by the iteration's enforce call. -/
def fetch_all_repos_tr (rl : Nat → RateResp) (now : Nat → Int) :
    Nat → List PageResp → List Event
  | i, [] => enforce_rate_limit (rl i) (now i) ++ [Event.api ApiCall.repoPage]
  | i, p :: rest =>
    enforce_rate_limit (rl i) (now i) ++
      (Event.api ApiCall.repoPage ::
        (if p.status ≠ 200 then []
         else if p.batch = [] then []
         else fetch_all_repos_tr rl now (i + 1) rest))

/-- The repositories accumulated by `fetch_all_repos(org)` over the same
pages. -/
def fetch_all_repos_val : List PageResp → List String
  | [] => []
  | p :: rest =>
    if p.status ≠ 200 then []
    else if p.batch = [] then []
    else p.batch ++ fetch_all_repos_val rest

/-- An entry of a contents-API directory listing. -/
structure DirItem where
  type : String
  name : String
  path : String
  download_url : String
deriving DecidableEq

/-- A response of the contents endpoint for `.github/workflows`: `listing`
is `some items` when the body is a JSON list, `none` otherwise (e.g. the
path resolved to a single file). -/
structure ContentsResp where
  status : Nat
  listing : Option (List DirItem)

/-- The trace of `fetch_workflow_files(org, repo)`: one enforce, then one
directory-listing request. -/
def fetch_workflow_files_tr (rl : RateResp) (now : Int) : List Event :=
  enforce_rate_limit rl now ++ [Event.api ApiCall.contentsDir]

/-- The value of `fetch_workflow_files`: 404 and other non-200 statuses give
`[]`, a non-list body gives `[]`, and a list body is filtered to file-type
entries. -/
def fetch_workflow_files_val (resp : ContentsResp) : List DirItem :=
  if resp.status = 404 then []
  else if resp.status ≠ 200 then []
  else
    match resp.listing with
    | some items => items.filter fun it => it.type = "file"
    | none => []

/-- The trace of `parse_workflow_file(download_url)`: one enforce, then one
raw-content download (the parsing itself is pure). -/
def parse_workflow_file_tr (rl : RateResp) (now : Int) : List Event :=
  enforce_rate_limit rl now ++ [Event.api ApiCall.rawDownload]

/-- Freshness discipline of a trace: `gatedFrom fresh t` holds when every
throttleable call (any API call other than the quota query itself) in `t`
happens while a quota check newer than the last throttleable call is in
hand; quota queries refresh the information, sleeps preserve it. -/
def gatedFrom : Bool → List Event → Bool
  | _, [] => true
  | _, Event.api ApiCall.rateLimit :: rest => gatedFrom true rest
  | fresh, Event.api _ :: rest => fresh && gatedFrom false rest
  | fresh, Event.sleep _ :: rest => gatedFrom fresh rest

/-- A trace is gated when it satisfies the freshness discipline starting
with no quota information. -/
def gated (t : List Event) : Bool := gatedFrom false t

/-- The per-run environment determining the crawl's trace: the repository
pages of each organisation and the workflows-directory response of each
repository. -/
structure TraceWorld where
  pages : String → List PageResp
  contents : String → String → ContentsResp

/-- Trace of `main`'s inner repository body: list the workflows directory,
then download each located workflow file (an empty file list short-circuits
via `continue`, which contributes no events). -/
def repo_tr (w : TraceWorld) (rl : RateResp) (now : Int) (org repo : String) :
    List Event :=
  fetch_workflow_files_tr rl now ++
    (fetch_workflow_files_val (w.contents org repo)).flatMap
      fun _ => parse_workflow_file_tr rl now

/-- Trace of `main`'s per-organisation body: enumerate repositories, then
(unless none were found) visit each repository. -/
def org_tr (w : TraceWorld) (rl : RateResp) (now : Int) (org : String) :
    List Event :=
  fetch_all_repos_tr (fun _ => rl) (fun _ => now) 0 (w.pages org) ++
    (if fetch_all_repos_val (w.pages org) = [] then []
     else (fetch_all_repos_val (w.pages org)).flatMap fun repo =>
       repo_tr w rl now org repo)

/-- Trace of `main`'s crawl loop over the resolved organisations (the quota
endpoint is modelled as answering every check of the run with `rl`). -/
def main_tr (w : TraceWorld) (rl : RateResp) (now : Int)
    (orgs : List String) : List Event :=
  orgs.flatMap fun org => org_tr w rl now org

/-- A quota response with plenty of remaining calls. -/
def goodRl : RateResp := ⟨200, 5000, 0⟩

/-- A concrete run environment: one page of ten repositories per
organisation, one workflow file per repository. -/
def exWorld : TraceWorld where
  pages := fun _ =>
    [⟨200, ["r1", "r2", "r3", "r4", "r5", "r6", "r7", "r8", "r9", "r10"]⟩]
  contents := fun _ _ =>
    ⟨200, some [⟨"file", "ci.yml", ".github/workflows/ci.yml", "raw/ci.yml"⟩]⟩

/-! ## `main`: exit status (github_search_actions.py lines 220-300)

`main` has exactly these exit paths: `sys.exit(1)` when `GITHUB_TOKEN` is
unset, `sys.exit(1)` when the resolved organisation list is empty, an
uncaught exception escaping the crawl loop — `parse_workflow_file` raises
`AttributeError` on a mapping document whose `jobs` mapping holds a
non-mapping job entry, terminating the process with a failure status — and
normal completion with status 0.  The crawl's remote outcomes are abstracted
into `RunData`: the repository names enumerated per organisation, the
workflow files located per repository, and the fetch/parse input of each
download URL. -/

structure Entry where
  workflow_file : String
  uses_reference : String
  is_third_party : Bool
deriving DecidableEq

structure CrawlData where
  repos : String → List String
  wfiles : String → String → List DirItem
  uses_of : String → List String

/-- Python `d[k] = v` on an insertion-ordered dict. -/
def dictInsert (k : String) (v : α) : List (String × α) → List (String × α)
  | [] => [(k, v)]
  | (k0, v0) :: rest =>
    if k0 = k then (k, v) :: rest else (k0, v0) :: dictInsert k v rest

/-- Python `d[k]` lookup on an insertion-ordered dict. -/
def dlookup (k : String) : List (String × α) → Option α
  | [] => none
  | (k0, v0) :: rest => if k0 = k then some v0 else dlookup k rest

/-- The `repo_inventory` list built for one repository: one entry per
`uses` reference of each located workflow file, in encounter order, with the
classifier applied (`own` is `my_orgs_lower`). -/
def repoInventory (d : CrawlData) (own : List (List Char)) (org repo : String) :
    List Entry :=
  (d.wfiles org repo).flatMap fun wf =>
    (d.uses_of wf.download_url).map fun ref =>
      ⟨wf.path, ref, is_third_party ref.toList own⟩

/-- The `org_results` dict: for each repository in enumeration order, skip it
when its workflow-file list is empty (`continue`) or its inventory is empty,
otherwise assign the inventory under the repository name. -/
def orgResultsAux (d : CrawlData) (own : List (List Char)) (org : String) :
    List String → List (String × List Entry) → List (String × List Entry)
  | [], acc => acc
  | repo :: rest, acc =>
    if d.wfiles org repo = [] then orgResultsAux d own org rest acc
    else if repoInventory d own org repo = [] then orgResultsAux d own org rest acc
    else orgResultsAux d own org rest (dictInsert repo (repoInventory d own org repo) acc)

def orgResults (d : CrawlData) (own : List (List Char)) (org : String) :
    List (String × List Entry) :=
  orgResultsAux d own org (d.repos org) []

/-- The `results` dict: for each organisation in order, skip it when its
repository enumeration is empty (`continue`) or its `org_results` dict is
empty, otherwise assign `org_results` under the organisation name. -/
def buildResultsAux (d : CrawlData) (own : List (List Char)) :
    List String → List (String × List (String × List Entry)) →
    List (String × List (String × List Entry))
  | [], acc => acc
  | org :: rest, acc =>
    if d.repos org = [] then buildResultsAux d own rest acc
    else if orgResults d own org = [] then buildResultsAux d own rest acc
    else buildResultsAux d own rest (dictInsert org (orgResults d own org) acc)

def buildResults (d : CrawlData) (own : List (List Char)) (orgs : List String) :
    List (String × List (String × List Entry)) :=
  buildResultsAux d own orgs []

/-! ## Helper lemmas on the string primitives -/

theorem pySplitOn_ne_nil (sep : Char) (s : List Char) : pySplitOn sep s ≠ [] := by
  cases s with
  | nil => simp [pySplitOn]
  | cons c rest =>
    simp only [pySplitOn]
    split <;> simp

/-- Claim C1: `is_third_party` agrees with the specification's classifier on
every reference and every organisation set: it returns first-party (`false`)
iff the lowercased, trimmed reference starts with `actions/`, or the owner
segment equals `docker`, or the owner is a member of `own_orgs`; third-party
(`true`) otherwise.  In particular `myorg/custom-action@v3` is first-party
against `{myorg}` and third-party against `{otherorg}`. -/
theorem c1_classify_equiv :
    (∀ ref own_orgs, is_third_party ref own_orgs = classify_spec ref own_orgs) ∧
    is_third_party "myorg/custom-action@v3".toList ["myorg".toList] = false ∧
    is_third_party "myorg/custom-action@v3".toList ["otherorg".toList] = true := by
  refine ⟨?_, by decide, by decide⟩
  intro ref own
  unfold is_third_party classify_spec
  cases hp : pyStartswith (normRef ref) ("actions/".toList)
  · simp only [hp, Bool.false_eq_true, if_false, Bool.false_or]
    rw [if_neg (by exact pySplitOn_ne_nil '/' _)]
    by_cases hd : ownerOf (normRef ref) = "docker".toList
    · simp [hd]
    · by_cases hm : ownerOf (normRef ref) ∈ own
      · simp [hd, hm]
      · simp [hd, hm]
  · simp [hp]

/-- Claim C4: the code's behaviour at the failing inputs.  The claim (and the
source's own comment `"We can't parse it, default to not labeling it
third-party"`) require first-party (`false`) for references with no
extractable owner, but the dead `if not parts` guard (Python `split` never
yields an empty list) lets the empty owner fall through to the membership
test, so the empty reference, a whitespace-only reference, and `"@v3"` are
all classified third-party (`true`). -/
theorem c4_code_divergence :
    is_third_party "".toList [] = true ∧
    is_third_party "   ".toList [] = true ∧
    is_third_party "@v3".toList [] = true := by
  decide

/-! ## Lemmas for the workflow parser -/

theorem length_filterMap_countP (f : α → Option β) (l : List α) :
    (l.filterMap f).length = l.countP fun a => (f a).isSome := by
  induction l with
  | nil => rfl
  | cons a l ih =>
    cases h : f a <;> simp [List.filterMap_cons, h, List.countP_cons, ih]

theorem stepsOfJob_isSome : ∀ {jd : Yaml}, (stepsOfJob jd).isSome = true →
    ∃ jm ss, jd = Yaml.map jm ∧ yGet jm "steps" = some (Yaml.seq ss) := by
  intro jd h
  match jd with
  | .map jm =>
    match hs : yGet jm "steps" with
    | some (.seq ss) => exact ⟨jm, ss, rfl, hs⟩
    | some .null => simp [stepsOfJob, hs] at h
    | some (.bool _) => simp [stepsOfJob, hs] at h
    | some (.num _) => simp [stepsOfJob, hs] at h
    | some (.str _) => simp [stepsOfJob, hs] at h
    | some (.map _) => simp [stepsOfJob, hs] at h
    | none => simp [stepsOfJob, hs] at h
  | .null => simp [stepsOfJob] at h
  | .bool _ => simp [stepsOfJob] at h
  | .num _ => simp [stepsOfJob] at h
  | .str _ => simp [stepsOfJob] at h
  | .seq _ => simp [stepsOfJob] at h

theorem jobs_uses_of_wellShaped (jkvs : List (String × Yaml))
    (h : ∀ p ∈ jkvs, (stepsOfJob p.2).isSome = true) :
    jobs_uses jkvs =
      Except.ok (jkvs.flatMap fun p => ((stepsOfJob p.2).getD []).filterMap stepUses) := by
  induction jkvs with
  | nil => rfl
  | cons q rest ih =>
    obtain ⟨n, jd⟩ := q
    have h1 : (stepsOfJob jd).isSome = true := h (n, jd) (List.mem_cons_self _ _)
    have h2 : ∀ p ∈ rest, (stepsOfJob p.2).isSome = true :=
      fun p hp => h p (List.mem_cons_of_mem _ hp)
    obtain ⟨jm, ss, rfl, hs⟩ := stepsOfJob_isSome h1
    have hsj : stepsOfJob (Yaml.map jm) = some ss := by simp [stepsOfJob, hs]
    simp [jobs_uses, hs, ih h2, List.flatMap_cons, hsj, Except.map]

theorem jobs_uses_isOk (jkvs : List (String × Yaml)) :
    (jobs_uses jkvs).isOk = (jkvs.all fun p => p.2.isMap) := by
  induction jkvs with
  | nil => rfl
  | cons q rest ih =>
    obtain ⟨n, jd⟩ := q
    cases jd
    case map jm =>
      have hm : (jobs_uses ((n, Yaml.map jm) :: rest)).isOk = (jobs_uses rest).isOk := by
        cases h : jobs_uses rest <;>
          simp [jobs_uses, h, Except.map, Except.isOk, Except.toBool]
      rw [hm, ih, List.all_cons]
      simp [Yaml.isMap]
    all_goals
      simp [jobs_uses, Yaml.isMap, List.all_cons, Except.isOk, Except.toBool]

theorem length_flatMap_sum (jkvs : List (String × Yaml)) :
    (jkvs.flatMap fun p => ((stepsOfJob p.2).getD []).filterMap stepUses).length =
      (jkvs.map fun p =>
        ((stepsOfJob p.2).getD []).countP fun s => (stepUses s).isSome).sum := by
  induction jkvs with
  | nil => rfl
  | cons q rest ih =>
    simp [List.flatMap_cons, length_filterMap_countP, ih]

/-- Claim C2: for a workflow document that is a mapping whose `jobs` value is
a mapping of jobs each carrying a `steps` sequence, the parser succeeds and
returns exactly the `uses` values of the steps that are mappings containing a
`uses` key — one element per such step, none for run-only steps — in
job-iteration order and, within a job, step-sequence order; the number of
references equals the total count of uses-carrying steps. -/
theorem c2_parse_order (kvs jkvs : List (String × Yaml))
    (hjobs : yGet kvs "jobs" = some (Yaml.map jkvs))
    (hshape : ∀ p ∈ jkvs, (stepsOfJob p.2).isSome = true) :
    parse_workflow_file (some (some (Yaml.map kvs))) =
      Except.ok (jkvs.flatMap fun p => ((stepsOfJob p.2).getD []).filterMap stepUses) ∧
    (jkvs.flatMap fun p => ((stepsOfJob p.2).getD []).filterMap stepUses).length =
      (jkvs.map fun p =>
        ((stepsOfJob p.2).getD []).countP fun s => (stepUses s).isSome).sum := by
  constructor
  · simp [parse_workflow_file, hjobs, jobs_uses_of_wellShaped jkvs hshape]
  · exact length_flatMap_sum jkvs

/-- Concrete instance of C2: a two-job document with one uses-step and one
run-step in the first job and one uses-step in the second. -/
def c2jkvs : List (String × Yaml) :=
  [("build", Yaml.map [("steps", Yaml.seq
      [Yaml.map [("uses", Yaml.str "actions/checkout@v3")],
       Yaml.map [("run", Yaml.str "make")]])]),
   ("test", Yaml.map [("steps", Yaml.seq
      [Yaml.map [("uses", Yaml.str "randomuser/cool-action@v1")]])])]

def c2kvs : List (String × Yaml) :=
  [("name", Yaml.str "ci"), ("jobs", Yaml.map c2jkvs)]

theorem c2_parse_order_witness :
    parse_workflow_file (some (some (Yaml.map c2kvs))) =
      Except.ok (c2jkvs.flatMap fun p => ((stepsOfJob p.2).getD []).filterMap stepUses) ∧
    (c2jkvs.flatMap fun p => ((stepsOfJob p.2).getD []).filterMap stepUses).length =
      (c2jkvs.map fun p =>
        ((stepsOfJob p.2).getD []).countP fun s => (stepUses s).isSome).sum :=
  c2_parse_order c2kvs c2jkvs rfl (by decide)

/-- Claim C3 fails as stated: the parser boundary does propagate an error.
For the fetched document `{jobs: {job1: "oops"}}` — a job entry that is not a
mapping — `job_data.get("steps", [])` raises an `AttributeError` that is not
caught (the `try` only covers `yaml.safe_load`), so the call does not return
a list. -/
theorem c3_counterexample :
    (parse_workflow_file (some (some (Yaml.map
      [("jobs", Yaml.map [("job1", Yaml.str "oops")])])))).isOk = false := rfl

/-- Claim C3 amended: the parser returns a list without propagating any error
for fetch failures, unparseable documents, non-mapping documents, non-mapping
`jobs` values, and non-sequence `steps` values; it raises (propagates an
uncaught error) exactly when the document is a mapping whose `jobs` value is
a mapping containing a job entry that is not itself a mapping. -/
theorem c3_parse_isOk_iff_wellShaped (resp : Option (Option Yaml)) :
    (parse_workflow_file resp).isOk = jobsWellShaped resp := by
  match resp with
  | none => rfl
  | some none => rfl
  | some (some wd) =>
    cases wd
    case map kvs =>
      cases h : (yGet kvs "jobs").getD (Yaml.map []) <;>
        simp [parse_workflow_file, jobsWellShaped, h, Except.isOk, Except.toBool]
      exact jobs_uses_isOk _
    all_goals rfl

/-! ## RequestGate and exit-status claims -/

/-- Claim C10: one invocation of `enforce_rate_limit` performs exactly one
quota query and at most one sleep, the query precedes the sleep, and nothing
— in particular no re-query — follows the sleep: the whole trace is either
`[check]` or `[check, sleep s]`, so the call returns after the single sleep
even if the reported quota would still be zero. -/
theorem c10_enforce_trace (r : RateResp) (now : Int) :
    (enforce_rate_limit r now).countP isRateCheck = 1 ∧
    (enforce_rate_limit r now).countP isSleep ≤ 1 ∧
    (enforce_rate_limit r now = [Event.api ApiCall.rateLimit] ∨
      ∃ s, enforce_rate_limit r now =
        [Event.api ApiCall.rateLimit, Event.sleep s]) := by
  by_cases h : (check_rate_limit r).1 = 0 <;>
    simp [enforce_rate_limit, check_rate_limit_tr, h, isRateCheck, isSleep,
      List.countP_cons]

/-- Claim C9: `load_orgs` performs no shape validation on the cache
artifact.  Any successfully parsed JSON value — array, object, number or
string alike — is returned unchanged as the run's organisation list; only a
missing file or a parse failure triggers the live fetch. -/
theorem c9_load_no_validation :
    (∀ v r, load_orgs (some (some v)) r = v) ∧
    (∀ r, load_orgs none r = Yaml.seq ((fetch_orgs_val r).map Yaml.str)) ∧
    (∀ r, load_orgs (some none) r = Yaml.seq ((fetch_orgs_val r).map Yaml.str)) :=
  ⟨fun _ _ => rfl, fun _ => rfl, fun _ => rfl⟩

/-! ## Gating lemmas (claim C6) and cooldown lemmas (claim C7) -/

theorem gatedFrom_enforce (b : Bool) (r : RateResp) (now : Int) (t : List Event) :
    gatedFrom b (enforce_rate_limit r now ++ t) = gatedFrom true t := by
  by_cases h : (check_rate_limit r).1 = 0 <;>
    simp [enforce_rate_limit, check_rate_limit_tr, h, gatedFrom]

theorem gatedFrom_fetch_all_repos (rl : Nat → RateResp) (now : Nat → Int)
    (pages : List PageResp) (i : Nat) (b : Bool) (t : List Event) :
    gatedFrom b (fetch_all_repos_tr rl now i pages ++ t) = gatedFrom false t := by
  induction pages generalizing i b with
  | nil =>
    rw [fetch_all_repos_tr, List.append_assoc, gatedFrom_enforce]
    simp [gatedFrom]
  | cons p rest ih =>
    rw [fetch_all_repos_tr, List.append_assoc, gatedFrom_enforce]
    by_cases h1 : p.status ≠ 200
    · simp [h1, gatedFrom]
    · by_cases h2 : p.batch = []
      · simp [h1, h2, gatedFrom]
      · simp only [h1, h2, if_neg, if_false, ite_false]
        simp only [List.cons_append, gatedFrom, Bool.true_and]
        exact ih (i + 1) false

theorem gatedFrom_wf_files (rl : RateResp) (now : Int) (b : Bool) (t : List Event) :
    gatedFrom b (fetch_workflow_files_tr rl now ++ t) = gatedFrom false t := by
  rw [fetch_workflow_files_tr, List.append_assoc, gatedFrom_enforce]
  simp [gatedFrom]

theorem gatedFrom_parse_tr (rl : RateResp) (now : Int) (b : Bool) (t : List Event) :
    gatedFrom b (parse_workflow_file_tr rl now ++ t) = gatedFrom false t := by
  rw [parse_workflow_file_tr, List.append_assoc, gatedFrom_enforce]
  simp [gatedFrom]

theorem gatedFrom_flatMap_parse (rl : RateResp) (now : Int) (l : List DirItem)
    (t : List Event) :
    gatedFrom false ((l.flatMap fun _ => parse_workflow_file_tr rl now) ++ t) =
      gatedFrom false t := by
  induction l with
  | nil => rfl
  | cons x rest ih =>
    rw [List.flatMap_cons, List.append_assoc, gatedFrom_parse_tr, ih]

theorem gatedFrom_repo_tr (w : TraceWorld) (rl : RateResp) (now : Int)
    (org repo : String) (b : Bool) (t : List Event) :
    gatedFrom b (repo_tr w rl now org repo ++ t) = gatedFrom false t := by
  rw [repo_tr, List.append_assoc, gatedFrom_wf_files, gatedFrom_flatMap_parse]

theorem gatedFrom_flatMap_repo_tr (w : TraceWorld) (rl : RateResp) (now : Int)
    (org : String) (repos : List String) (t : List Event) :
    gatedFrom false ((repos.flatMap fun repo => repo_tr w rl now org repo) ++ t) =
      gatedFrom false t := by
  induction repos with
  | nil => rfl
  | cons x rest ih =>
    rw [List.flatMap_cons, List.append_assoc, gatedFrom_repo_tr, ih]

theorem gatedFrom_org_tr (w : TraceWorld) (rl : RateResp) (now : Int)
    (org : String) (b : Bool) (t : List Event) :
    gatedFrom b (org_tr w rl now org ++ t) = gatedFrom false t := by
  rw [org_tr, List.append_assoc, gatedFrom_fetch_all_repos]
  by_cases h : fetch_all_repos_val (w.pages org) = []
  · simp [h]
  · rw [if_neg h, gatedFrom_flatMap_repo_tr]

/-- Claim C6 fails as stated: the organisation fetch (`fetch_orgs`) issues
its organisation-list request with no preceding quota check at all — its
trace contains one throttleable call, zero quota queries, and violates the
freshness discipline. -/
theorem c6_counterexample :
    gated fetch_orgs_tr = false ∧
    fetch_orgs_tr.countP isRateCheck = 0 ∧
    fetch_orgs_tr.countP isApi = 1 := by
  refine ⟨rfl, rfl, rfl⟩

/-- Claim C6 amended: within the crawl itself every remote call that could
be throttled — each repository-listing page request, each workflows-directory
listing, and each raw workflow-file download — is immediately preceded by a
fresh `enforce_rate_limit` quota check, and no such call is issued on quota
information older than one check; only the organisation fetch is unguarded. -/
theorem c6_gated_crawl (w : TraceWorld) (rl : RateResp) (now : Int)
    (orgs : List String) :
    gated (main_tr w rl now orgs) = true := by
  unfold gated main_tr
  induction orgs with
  | nil => rfl
  | cons o rest ih =>
    rw [List.flatMap_cons, gatedFrom_org_tr]
    exact ih

theorem enforce_no_sleep (rl : RateResp) (now : Int) (hs : rl.status = 200)
    (hr : rl.remaining ≠ 0) :
    enforce_rate_limit rl now = [Event.api ApiCall.rateLimit] := by
  simp [enforce_rate_limit, check_rate_limit, check_rate_limit_tr, hs, hr]

theorem sleepCount_flatMap {α : Type} (l : List α) (f : α → List Event)
    (h : ∀ x ∈ l, (f x).countP isSleep = 0) :
    (l.flatMap f).countP isSleep = 0 := by
  induction l with
  | nil => rfl
  | cons x rest ih =>
    simp [List.flatMap_cons, List.countP_append, h x (List.mem_cons_self _ _),
      ih fun y hy => h y (List.mem_cons_of_mem _ hy)]

theorem sleepCount_fetch_all_repos (rl : RateResp) (now : Int)
    (hs : rl.status = 200) (hr : rl.remaining ≠ 0)
    (pages : List PageResp) (i : Nat) :
    (fetch_all_repos_tr (fun _ => rl) (fun _ => now) i pages).countP isSleep = 0 := by
  induction pages generalizing i with
  | nil =>
    simp [fetch_all_repos_tr, enforce_no_sleep rl now hs hr, isSleep,
      List.countP_cons, List.countP_append]
  | cons p rest ih =>
    rw [fetch_all_repos_tr, enforce_no_sleep rl now hs hr]
    by_cases h1 : p.status ≠ 200
    · simp [h1, isSleep, List.countP_cons, List.countP_append]
    · by_cases h2 : p.batch = []
      · simp [h1, h2, isSleep, List.countP_cons, List.countP_append]
      · simp [h1, h2, isSleep, List.countP_cons, List.countP_append, ih]

theorem sleepCount_repo_tr (w : TraceWorld) (rl : RateResp) (now : Int)
    (org repo : String) (hs : rl.status = 200) (hr : rl.remaining ≠ 0) :
    (repo_tr w rl now org repo).countP isSleep = 0 := by
  have h2 : (parse_workflow_file_tr rl now).countP isSleep = 0 := by
    simp [parse_workflow_file_tr, enforce_no_sleep rl now hs hr, isSleep,
      List.countP_cons, List.countP_append]
  rw [repo_tr, List.countP_append,
    sleepCount_flatMap _ _ fun x _ => h2]
  simp [fetch_workflow_files_tr, enforce_no_sleep rl now hs hr, isSleep,
    List.countP_cons, List.countP_append]

/-- Claim C7 fails as stated: the crawl loop of this program keeps no
request counter and forces no fixed-interval cooldown.  A concrete run over
one organisation with ten repositories issues 44 requests — more than any
plausible fixed N (the sibling tools use 9) — while the quota endpoint keeps
reporting plenty of remaining calls, and its trace contains not a single
sleep event, count-triggered or otherwise. -/
theorem c7_counterexample :
    (main_tr exWorld goodRl 0 ["o1"]).countP isApi = 44 ∧
    (main_tr exWorld goodRl 0 ["o1"]).countP isSleep = 0 := by
  constructor <;> rfl

/-- Claim C7 amended: the crawl loop maintains no running request count and
never forces a count-triggered cooldown; its only suspension is the
quota-triggered sleep inside `enforce_rate_limit`, so whenever every quota
check of a run reports a positive remaining count, the run's trace —
regardless of how many requests it issues — contains zero cooldown sleeps. -/
theorem c7_no_count_cooldown (w : TraceWorld) (orgs : List String)
    (rl : RateResp) (now : Int) (hs : rl.status = 200) (hr : rl.remaining ≠ 0) :
    (main_tr w rl now orgs).countP isSleep = 0 := by
  unfold main_tr
  apply sleepCount_flatMap
  intro org _
  unfold org_tr
  rw [List.countP_append, sleepCount_fetch_all_repos rl now hs hr]
  by_cases h : fetch_all_repos_val (w.pages org) = []
  · simp [h]
  · rw [if_neg h,
      sleepCount_flatMap _ _ fun repo _ => sleepCount_repo_tr w rl now org repo hs hr]

theorem c7_no_count_cooldown_witness :
    goodRl.status = 200 ∧ goodRl.remaining ≠ 0 ∧
    (main_tr exWorld goodRl 0 ["alpha", "beta"]).countP isSleep = 0 :=
  ⟨rfl, by decide,
    c7_no_count_cooldown exWorld ["alpha", "beta"] goodRl 0 rfl (by decide)⟩

/-! ## Lemmas on the report dictionaries (claim C5) -/

theorem dlookup_dictInsert (k k' : String) (v : α) (d : List (String × α)) :
    dlookup k' (dictInsert k v d) = if k = k' then some v else dlookup k' d := by
  induction d with
  | nil => simp [dictInsert, dlookup]
  | cons p rest ih =>
    obtain ⟨k0, v0⟩ := p
    by_cases h0 : k0 = k
    · subst h0
      by_cases h1 : k0 = k'
      · simp [dictInsert, dlookup, h1]
      · simp [dictInsert, dlookup, h1]
    · by_cases h1 : k0 = k'
      · subst h1
        simp [dictInsert, dlookup, h0, Ne.symm h0]
      · simp [dictInsert, dlookup, h0, h1, ih]

theorem le_length_dictInsert (k : String) (v : α) (d : List (String × α)) :
    d.length ≤ (dictInsert k v d).length := by
  induction d with
  | nil => simp [dictInsert]
  | cons p rest ih =>
    obtain ⟨k0, v0⟩ := p
    by_cases h : k0 = k
    · simp [dictInsert, h]
    · simp only [dictInsert, h, if_false, ite_false, List.length_cons]
      omega

theorem le_length_orgResultsAux (d : CrawlData) (own : List (List Char))
    (org : String) (repos : List String) (acc : List (String × List Entry)) :
    acc.length ≤ (orgResultsAux d own org repos acc).length := by
  induction repos generalizing acc with
  | nil => simp [orgResultsAux]
  | cons r rest ih =>
    simp only [orgResultsAux]
    by_cases h1 : d.wfiles org r = []
    · rw [if_pos h1]; exact ih acc
    · rw [if_neg h1]
      by_cases h2 : repoInventory d own org r = []
      · rw [if_pos h2]; exact ih acc
      · rw [if_neg h2]
        exact le_trans (le_length_dictInsert _ _ _) (ih _)

theorem orgResultsAux_eq_nil_iff (d : CrawlData) (own : List (List Char))
    (org : String) (repos : List String) :
    orgResultsAux d own org repos [] = [] ↔
      ∀ r ∈ repos, repoInventory d own org r = [] := by
  induction repos with
  | nil => simp [orgResultsAux]
  | cons r rest ih =>
    simp only [orgResultsAux]
    by_cases h1 : d.wfiles org r = []
    · rw [if_pos h1]
      have hinv : repoInventory d own org r = [] := by simp [repoInventory, h1]
      simp [ih, List.forall_mem_cons, hinv]
    · rw [if_neg h1]
      by_cases h2 : repoInventory d own org r = []
      · rw [if_pos h2]
        simp [ih, List.forall_mem_cons, h2]
      · rw [if_neg h2]
        have hne : orgResultsAux d own org rest
            (dictInsert r (repoInventory d own org r) []) ≠ [] := by
          intro h
          have hle := le_length_orgResultsAux d own org rest
            (dictInsert r (repoInventory d own org r) [])
          rw [h] at hle
          simp [dictInsert] at hle
        simp [hne, List.forall_mem_cons, h2]

theorem orgResults_eq_nil_iff (d : CrawlData) (own : List (List Char))
    (org : String) :
    orgResults d own org = [] ↔
      ∀ r ∈ d.repos org, repoInventory d own org r = [] := by
  rw [orgResults]
  exact orgResultsAux_eq_nil_iff d own org (d.repos org)

theorem dlookup_orgResultsAux (d : CrawlData) (own : List (List Char))
    (org : String) (repos : List String) (acc : List (String × List Entry))
    (k : String) :
    dlookup k (orgResultsAux d own org repos acc) =
      if k ∈ repos ∧ repoInventory d own org k ≠ [] then
        some (repoInventory d own org k)
      else dlookup k acc := by
  induction repos generalizing acc with
  | nil => simp [orgResultsAux]
  | cons r rest ih =>
    simp only [orgResultsAux]
    by_cases h1 : d.wfiles org r = []
    · rw [if_pos h1, ih]
      have hinv : repoInventory d own org r = [] := by simp [repoInventory, h1]
      by_cases hk : k = r
      · subst hk
        simp [hinv]
      · simp [List.mem_cons, hk]
    · rw [if_neg h1]
      by_cases h2 : repoInventory d own org r = []
      · rw [if_pos h2, ih]
        by_cases hk : k = r
        · subst hk
          simp [h2]
        · simp [List.mem_cons, hk]
      · rw [if_neg h2, ih, dlookup_dictInsert]
        by_cases hk : k = r
        · subst hk
          by_cases hm : k ∈ rest ∧ repoInventory d own org k ≠ [] <;>
            simp [hm, h2, List.mem_cons]
        · simp [List.mem_cons, hk, Ne.symm hk]

theorem dlookup_buildResultsAux (d : CrawlData) (own : List (List Char))
    (orgs : List String) (acc : List (String × List (String × List Entry)))
    (k : String) :
    dlookup k (buildResultsAux d own orgs acc) =
      if k ∈ orgs ∧ orgResults d own k ≠ [] then some (orgResults d own k)
      else dlookup k acc := by
  induction orgs generalizing acc with
  | nil => simp [buildResultsAux]
  | cons o rest ih =>
    simp only [buildResultsAux]
    by_cases h1 : d.repos o = []
    · rw [if_pos h1, ih]
      have hog : orgResults d own o = [] := by simp [orgResults, h1, orgResultsAux]
      by_cases hk : k = o
      · subst hk
        simp [hog]
      · simp [List.mem_cons, hk]
    · rw [if_neg h1]
      by_cases h2 : orgResults d own o = []
      · rw [if_pos h2, ih]
        by_cases hk : k = o
        · subst hk
          simp [h2]
        · simp [List.mem_cons, hk]
      · rw [if_neg h2, ih, dlookup_dictInsert]
        by_cases hk : k = o
        · subst hk
          by_cases hm : k ∈ rest ∧ orgResults d own k ≠ [] <;>
            simp [hm, h2, List.mem_cons]
        · simp [List.mem_cons, hk, Ne.symm hk]

/-- Claim C5: the report is sparse.  A repository key exists under an
organisation key iff the organisation was crawled, the repository was
enumerated for it, and its inventory — one entry per extracted action
reference — is non-empty; an organisation key exists iff the organisation
was crawled and some enumerated repository produced a non-empty inventory
(so an organisation with zero repositories, and a repository with no
workflow files or zero references, contributes no key). -/
theorem c5_report_sparse (d : CrawlData) (own : List (List Char))
    (orgs : List String) (org repo : String) :
    (((dlookup org (buildResults d own orgs)).bind fun og => dlookup repo og) ≠ none ↔
      org ∈ orgs ∧ repo ∈ d.repos org ∧ repoInventory d own org repo ≠ []) ∧
    (dlookup org (buildResults d own orgs) ≠ none ↔
      org ∈ orgs ∧ ∃ r ∈ d.repos org, repoInventory d own org r ≠ []) := by
  have hb : dlookup org (buildResults d own orgs) =
      if org ∈ orgs ∧ orgResults d own org ≠ [] then some (orgResults d own org)
      else none := by
    rw [buildResults, dlookup_buildResultsAux]
    simp [dlookup]
  have ho : dlookup repo (orgResults d own org) =
      if repo ∈ d.repos org ∧ repoInventory d own org repo ≠ [] then
        some (repoInventory d own org repo)
      else none := by
    rw [orgResults, dlookup_orgResultsAux]
    simp [dlookup]
  constructor
  · rw [hb]
    by_cases h1 : org ∈ orgs ∧ orgResults d own org ≠ []
    · rw [if_pos h1]
      simp only [Option.some_bind]
      rw [ho]
      by_cases h2 : repo ∈ d.repos org ∧ repoInventory d own org repo ≠ []
      · simp [h1.1, h2, h2.1, h2.2]
      · simp only [if_neg h2, ne_eq, not_true_eq_false]
        simp only [not_and] at h2
        constructor
        · intro h
          exact h.elim
        · rintro ⟨hm, hr, hi⟩
          exact absurd hi (h2 hr)
    · rw [if_neg h1]
      simp only [Option.none_bind, ne_eq, not_true_eq_false, false_iff]
      rintro ⟨hm, hr, hi⟩
      rcases not_and_or.mp h1 with hno | hno
      · exact hno hm
      · rw [not_not] at hno
        exact hi ((orgResults_eq_nil_iff d own org).mp hno repo hr)
  · rw [hb]
    by_cases h1 : org ∈ orgs ∧ orgResults d own org ≠ []
    · rw [if_pos h1]
      simp only [ne_eq, reduceCtorEq, not_false_iff, true_iff]
      refine ⟨h1.1, ?_⟩
      by_contra hall
      push_neg at hall
      exact h1.2 ((orgResults_eq_nil_iff d own org).mpr
        fun r hr => by simpa using hall r hr)
    · rw [if_neg h1]
      simp only [ne_eq, not_true_eq_false, false_iff]
      rintro ⟨hm, r, hr, hi⟩
      rcases not_and_or.mp h1 with hno | hno
      · exact hno hm
      · rw [not_not] at hno
        exact hi ((orgResults_eq_nil_iff d own org).mp hno r hr)
